import Mathlib

/-!
Verification of the 2D polygon gravity kernel (Won & Bevis 1987 line-integral
formula) implemented in `grav.py` (`DensePolygon` and its method `Grav`).

The real-valued computation is embedded over `ℝ`: numpy arrays become lists,
the per-edge case dispatch becomes nested `if`s mirroring the source's
`continue`-based control flow, and the Python exceptions of the density setter
and the geometry validity check become `Except` values.
-/

open Real

noncomputable section

namespace Grav2D

/-- `np.arctan2 y x`: the angle of the point `(x, y)`, in `(-π, π]`
(with the convention `atan2 0 0 = 0`, and `+π` on the negative x-axis). -/
def atan2 (y x : ℝ) : ℝ :=
  if 0 < x then Real.arctan (y / x)
  else if x < 0 then
    (if 0 ≤ y then Real.arctan (y / x) + π else Real.arctan (y / x) - π)
  else
    (if 0 < y then π / 2 else if y < 0 then -(π / 2) else 0)

/-- Gravitational constant, `G=6.67259e-11` in `grav.py`. -/
def G : ℝ := 6.67259e-11

/-- Station-relative coordinates: `x = xPolygon - xstations[i]`,
`z = zPolygon - zstations[i]` (lines 53-54 of `grav.py`), for one vertex. -/
def relPt (s p : ℝ × ℝ) : ℝ × ℝ := (p.1 - s.1, p.2 - s.2)

/-- The numeric-stability substitution `z[z==0]=1e-42` (line 56 of `grav.py`),
applied to one station-relative vertex. -/
def perturbZ (p : ℝ × ℝ) : ℝ × ℝ := (p.1, if p.2 = 0 then 1e-42 else p.2)

/-- `theta = np.arctan2(z, x)` (line 58 of `grav.py`), per vertex. -/
def theta (p : ℝ × ℝ) : ℝ := atan2 p.2 p.1

/-- `r = np.sqrt(x**2 + z**2)` (line 59 of `grav.py`), per vertex. -/
def rr (p : ℝ × ℝ) : ℝ := Real.sqrt (p.1 ^ 2 + p.2 ^ 2)

/-- The value of `theta1` after the Case-1 branch-cut adjustment
(lines 71-74 of `grav.py`): `2π` is added when the edge sign-crosses and
`x[j]*z[j+1] < x[j+1]*z[j]` and `z[j+1] >= 0`. -/
def adjTheta1 (p q : ℝ × ℝ) : ℝ :=
  if p.2 * q.2 < 0 ∧ p.1 * q.2 < q.1 * p.2 ∧ q.2 ≥ 0 then theta p + 2 * π
  else theta p

/-- The value of `theta2` after the Case-1 branch-cut adjustment
(lines 71, 76-77 of `grav.py`): `2π` is added when the edge sign-crosses and
`x[j]*z[j+1] > x[j+1]*z[j]` and `z[j] >= 0`. -/
def adjTheta2 (p q : ℝ × ℝ) : ℝ :=
  if p.2 * q.2 < 0 ∧ p.1 * q.2 > q.1 * p.2 ∧ p.2 ≥ 0 then theta q + 2 * π
  else theta q

/-- The Case-2 guard of `grav.py` (line 86): one endpoint of the edge
coincides exactly with the station. -/
def degenGuard (p q : ℝ × ℝ) : Prop :=
  (p.1 = 0 ∧ p.2 = 0) ∨ (q.1 = 0 ∧ q.2 = 0)

instance (p q : ℝ × ℝ) : Decidable (degenGuard p q) := by
  unfold degenGuard; infer_instance

/-- One edge's contribution `(X[j], Z[j])` for station-relative (perturbed)
endpoints `p = (x[j], z[j])` and `q = (x[j+1], z[j+1])`: the body of the inner
loop of `Grav` (lines 64-106 of `grav.py`).  Case 1's `continue` fires only in
its `==` sub-branch; otherwise the adjusted thetas flow into Cases 3 and the
general case. -/
def edgeContrib (p q : ℝ × ℝ) : ℝ × ℝ :=
  let t1 := adjTheta1 p q
  let t2 := adjTheta2 p q
  if p.2 * q.2 < 0 ∧ p.1 * q.2 = q.1 * p.2 then (0, 0)
  else if degenGuard p q then (0, 0)
  else if p.1 = q.1 then
    (-p.1 * (t1 - t2), p.1 * Real.log (rr q / rr p))
  else
    let A := (q.1 - p.1) * (p.1 * q.2 - q.1 * p.2) /
      ((q.1 - p.1) ^ 2 + (q.2 - p.2) ^ 2)
    let B := (q.2 - p.2) / (q.1 - p.1)
    (A * (B * (t2 - t1) + Real.log (rr q / rr p)),
     A * ((t1 - t2) + B * Real.log (rr q / rr p)))

/-- The consecutive pairs of a list: the edges `(j, j+1)`,
`j = 0 .. len-2`, of the closed ring array (loop at line 64 of `grav.py`;
the ring from `self.exterior.xy` repeats the first vertex at the end, so
these edges walk the whole closed polygon). -/
def pairs {α : Type} : List α → List (α × α)
  | a :: b :: t => (a, b) :: pairs (b :: t)
  | _ => []

/-- The station-relative, zero-`z`-perturbed vertex array for one station
(lines 53-56 of `grav.py`). -/
def perturbedPts (ring : List (ℝ × ℝ)) (s : ℝ × ℝ) : List (ℝ × ℝ) :=
  ring.map (fun p => perturbZ (relPt s p))

/-- `np.sum(X)` over the edges, for one station. -/
def edgeSumX (ring : List (ℝ × ℝ)) (s : ℝ × ℝ) : ℝ :=
  ((pairs (perturbedPts ring s)).map (fun e => (edgeContrib e.1 e.2).1)).sum

/-- `np.sum(Z)` over the edges, for one station. -/
def edgeSumZ (ring : List (ℝ × ℝ)) (s : ℝ × ℝ) : ℝ :=
  ((pairs (perturbedPts ring s)).map (fun e => (edgeContrib e.1 e.2).2)).sum

/-- One station's `(xAnomaly[i], zAnomaly[i])` (lines 108-109 of `grav.py`):
`2*G*density*sum*1e5`, in mGal. -/
def stationAnomaly (ring : List (ℝ × ℝ)) (density : ℝ) (s : ℝ × ℝ) : ℝ × ℝ :=
  (2 * G * density * edgeSumX ring s * 1e5,
   2 * G * density * edgeSumZ ring s * 1e5)

/-- `DensePolygon.Grav` (lines 38-111 of `grav.py`): the pair
`(xAnomaly, zAnomaly)` over a station list.  `ring` is the closed exterior
ring `self.exterior.xy` (first vertex repeated last). -/
def Grav (ring : List (ℝ × ℝ)) (density : ℝ) (stations : List (ℝ × ℝ)) :
    List ℝ × List ℝ :=
  (stations.map (fun s => (stationAnomaly ring density s).1),
   stations.map (fun s => (stationAnomaly ring density s).2))

/-! ### Construction-time validation (`DensePolygon.__init__` and the
`density` property setter, lines 22-36 of `grav.py`).

The Python exceptions are modelled as an error type; the spec names the two
conditions `InvalidDensityError` and `InvalidGeometryError`. -/

/-- The error taxonomy: the `ValueError` of the density setter
(line 35, spec name `InvalidDensityError`) and the `ValueError` of the
geometry check (line 26, spec name `InvalidGeometryError`). -/
inductive GravError where
  | invalidDensityError : GravError
  | invalidGeometryError : GravError
deriving DecidableEq

/-- The `density` property setter (lines 32-36 of `grav.py`): rejects a
negative value, stores any other value unchanged. -/
def setDensity (value : ℝ) : Except GravError ℝ :=
  if value < 0 then .error .invalidDensityError else .ok value

/-- A constructed body: the validated ring plus its stored density. -/
structure DensePolygon where
  shell : List (ℝ × ℝ)
  density : ℝ

/-- `DensePolygon.__init__` (lines 22-26 of `grav.py`): the density setter
runs first (`self.density=density`), then the geometry validity check.
`isValid` is the verdict of shapely's `is_valid` — an external collaborator,
supplied here as an input bit. -/
def mkDensePolygon (shell : List (ℝ × ℝ)) (density : ℝ) (isValid : Bool) :
    Except GravError DensePolygon :=
  match setDensity density with
  | .error e => .error e
  | .ok d => if isValid then .ok ⟨shell, d⟩ else .error .invalidGeometryError

/-! ### The spec's closed-form per-edge contribution (section 4.1 of the
spec), written from the spec's words, to be compared with `edgeContrib`. -/

/-- The spec's `theta1` after branch-cut adjustment: `theta1 += 2π` when the
edge sign-crosses and `x[j]*z[j+1] < x[j+1]*z[j]` and `z[j+1] ≥ 0`. -/
def specTheta1 (p q : ℝ × ℝ) : ℝ :=
  if p.2 * q.2 < 0 ∧ p.1 * q.2 < q.1 * p.2 ∧ q.2 ≥ 0 then theta p + 2 * π
  else theta p

/-- The spec's `theta2` after branch-cut adjustment (the spec's "else if"):
`theta2 += 2π` when the edge sign-crosses, the `theta1` adjustment did not
fire, and `x[j]*z[j+1] > x[j+1]*z[j]` and `z[j] ≥ 0`. -/
def specTheta2 (p q : ℝ × ℝ) : ℝ :=
  if p.2 * q.2 < 0 ∧ ¬(p.1 * q.2 < q.1 * p.2 ∧ q.2 ≥ 0) ∧
      p.1 * q.2 > q.1 * p.2 ∧ p.2 ≥ 0 then theta q + 2 * π
  else theta q

/-- The spec's per-edge contribution pair `(X_j, Z_j)` for an edge not
handled by an earlier degenerate case: vertical-edge case when
`x[j] == x[j+1]`, otherwise the general case with the spec's `A` and `B`. -/
def specEdgeContrib (p q : ℝ × ℝ) : ℝ × ℝ :=
  let t1 := specTheta1 p q
  let t2 := specTheta2 p q
  if p.1 = q.1 then
    (-p.1 * (t1 - t2), p.1 * Real.log (rr q / rr p))
  else
    let A := (q.1 - p.1) * (p.1 * q.2 - q.1 * p.2) /
      ((q.1 - p.1) ^ 2 + (q.2 - p.2) ^ 2)
    let B := (q.2 - p.2) / (q.1 - p.1)
    (A * (B * (t2 - t1) + Real.log (rr q / rr p)),
     A * ((t1 - t2) + B * Real.log (rr q / rr p)))

/-- `edgeContrib` with the Case-2 (degenerate-vertex) branch removed: used
to state that the Case-2 branch of `grav.py` (lines 86-89) is dead code once
the `z` perturbation has run. -/
def edgeContribND (p q : ℝ × ℝ) : ℝ × ℝ :=
  let t1 := adjTheta1 p q
  let t2 := adjTheta2 p q
  if p.2 * q.2 < 0 ∧ p.1 * q.2 = q.1 * p.2 then (0, 0)
  else if p.1 = q.1 then
    (-p.1 * (t1 - t2), p.1 * Real.log (rr q / rr p))
  else
    let A := (q.1 - p.1) * (p.1 * q.2 - q.1 * p.2) /
      ((q.1 - p.1) ^ 2 + (q.2 - p.2) ^ 2)
    let B := (q.2 - p.2) / (q.1 - p.1)
    (A * (B * (t2 - t1) + Real.log (rr q / rr p)),
     A * ((t1 - t2) + B * Real.log (rr q / rr p)))

/-! ### The checked kernel: every partial real operation (division,
logarithm, square root) is guarded, so that `Grav` raising no exception and
producing no NaN/Inf is the statement that the checked kernel returns
`some`. -/

/-- Guarded division: defined exactly when the denominator is nonzero. -/
def safeDiv (a b : ℝ) : Option ℝ := if b = 0 then none else some (a / b)

/-- Guarded logarithm: defined (finite) exactly on positive arguments. -/
def safeLog (a : ℝ) : Option ℝ := if 0 < a then some (Real.log a) else none

/-- Guarded square root: defined (real) exactly on nonnegative arguments. -/
def safeSqrt (a : ℝ) : Option ℝ := if 0 ≤ a then some (Real.sqrt a) else none

/-- `rr` with the square root guarded. -/
def rrChecked (p : ℝ × ℝ) : Option ℝ := safeSqrt (p.1 ^ 2 + p.2 ^ 2)

/-- `edgeContrib` with every division and logarithm guarded. -/
def edgeContribChecked (p q : ℝ × ℝ) : Option (ℝ × ℝ) :=
  let t1 := adjTheta1 p q
  let t2 := adjTheta2 p q
  if p.2 * q.2 < 0 ∧ p.1 * q.2 = q.1 * p.2 then some (0, 0)
  else if degenGuard p q then some (0, 0)
  else if p.1 = q.1 then do
    let r1 ← rrChecked p
    let r2 ← rrChecked q
    let t ← safeDiv r2 r1
    let L ← safeLog t
    some (-p.1 * (t1 - t2), p.1 * L)
  else do
    let r1 ← rrChecked p
    let r2 ← rrChecked q
    let A ← safeDiv ((q.1 - p.1) * (p.1 * q.2 - q.1 * p.2))
      ((q.1 - p.1) ^ 2 + (q.2 - p.2) ^ 2)
    let B ← safeDiv (q.2 - p.2) (q.1 - p.1)
    let t ← safeDiv r2 r1
    let L ← safeLog t
    some (A * (B * (t2 - t1) + L), A * ((t1 - t2) + B * L))

/-- Option-valued `List.map`: fails when any element fails. -/
def mapMO {α β : Type} (f : α → Option β) : List α → Option (List β)
  | [] => some []
  | a :: t => do
    let b ← f a
    let bs ← mapMO f t
    some (b :: bs)

/-- One station's anomaly pair with every partial operation guarded. -/
def stationAnomalyChecked (ring : List (ℝ × ℝ)) (density : ℝ) (s : ℝ × ℝ) :
    Option (ℝ × ℝ) := do
  let contribs ← mapMO (fun e => edgeContribChecked e.1 e.2)
    (pairs (perturbedPts ring s))
  some (2 * G * density * (contribs.map Prod.fst).sum * 1e5,
    2 * G * density * (contribs.map Prod.snd).sum * 1e5)

/-! ### Helper lemmas -/

theorem perturbZ_snd_ne_zero (p : ℝ × ℝ) : (perturbZ p).2 ≠ 0 := by
  by_cases h : p.2 = 0 <;> norm_num [perturbZ, h]

theorem mem_perturbedPts (ring : List (ℝ × ℝ)) (s p : ℝ × ℝ)
    (hp : p ∈ perturbedPts ring s) : p.2 ≠ 0 := by
  simp only [perturbedPts, List.mem_map] at hp
  obtain ⟨q, _, rfl⟩ := hp
  exact perturbZ_snd_ne_zero _

theorem rr_pos (p : ℝ × ℝ) (h : p.2 ≠ 0) : 0 < rr p := by
  unfold rr
  apply Real.sqrt_pos.mpr
  have h2 : 0 < p.2 ^ 2 := lt_of_le_of_ne (sq_nonneg _) (Ne.symm (pow_ne_zero 2 h))
  nlinarith [sq_nonneg p.1]

theorem mem_pairs {α : Type} :
    ∀ (l : List α) (e : α × α), e ∈ pairs l → e.1 ∈ l ∧ e.2 ∈ l := by
  intro l
  induction l with
  | nil => intro e he; simp [pairs] at he
  | cons a t ih =>
    intro e he
    cases t with
    | nil => simp [pairs] at he
    | cons b t' =>
      simp only [pairs, List.mem_cons] at he
      rcases he with rfl | he
      · simp
      · have h2 := ih e he
        exact ⟨List.mem_cons_of_mem a h2.1, List.mem_cons_of_mem a h2.2⟩

theorem rrChecked_eq (p : ℝ × ℝ) : rrChecked p = some (rr p) := by
  unfold rrChecked safeSqrt rr
  rw [if_pos (by positivity)]

theorem edgeContribChecked_eq (p q : ℝ × ℝ) (hp : p.2 ≠ 0) (hq : q.2 ≠ 0) :
    edgeContribChecked p q = some (edgeContrib p q) := by
  have hrp := rr_pos p hp
  have hrq := rr_pos q hq
  unfold edgeContribChecked edgeContrib
  split_ifs with h1 h2 h3
  · rfl
  · rfl
  · simp [rrChecked_eq, safeDiv, safeLog, hrp.ne', div_pos hrq hrp]
  · have hsub : q.1 - p.1 ≠ 0 := sub_ne_zero.mpr (Ne.symm h3)
    have hden : 0 < (q.1 - p.1) ^ 2 + (q.2 - p.2) ^ 2 := by
      have := lt_of_le_of_ne (sq_nonneg (q.1 - p.1)) (Ne.symm (pow_ne_zero 2 hsub))
      nlinarith [sq_nonneg (q.2 - p.2)]
    simp [rrChecked_eq, safeDiv, safeLog, hrp.ne', div_pos hrq hrp, hden.ne', hsub]

theorem mapMO_eq_map {α β : Type} (f : α → Option β) (g : α → β) :
    ∀ (l : List α), (∀ a ∈ l, f a = some (g a)) → mapMO f l = some (l.map g) := by
  intro l
  induction l with
  | nil => intro _; rfl
  | cons a t ih =>
    intro h
    simp only [mapMO, h a (List.mem_cons_self a t),
      ih (fun x hx => h x (List.mem_cons_of_mem a hx)), List.map]
    rfl

theorem adjTheta1_swap (p q : ℝ × ℝ) : adjTheta1 q p = adjTheta2 p q := by
  unfold adjTheta1 adjTheta2
  refine if_congr ?_ rfl rfl
  constructor
  · rintro ⟨h1, h2, h3⟩
    exact ⟨by rwa [mul_comm], h2, h3⟩
  · rintro ⟨h1, h2, h3⟩
    exact ⟨by rwa [mul_comm], h2, h3⟩

theorem adjTheta2_swap (p q : ℝ × ℝ) : adjTheta2 q p = adjTheta1 p q := by
  unfold adjTheta1 adjTheta2
  refine if_congr ?_ rfl rfl
  constructor
  · rintro ⟨h1, h2, h3⟩
    exact ⟨by rwa [mul_comm], h2, h3⟩
  · rintro ⟨h1, h2, h3⟩
    exact ⟨by rwa [mul_comm], h2, h3⟩

theorem edgeContrib_swap (p q : ℝ × ℝ) (hp : p.2 ≠ 0) (hq : q.2 ≠ 0) :
    edgeContrib q p = (-(edgeContrib p q).1, -(edgeContrib p q).2) := by
  have hrp := rr_pos p hp
  have hrq := rr_pos q hq
  have hL : Real.log (rr p / rr q) = -Real.log (rr q / rr p) := by
    rw [Real.log_div hrp.ne' hrq.ne', Real.log_div hrq.ne' hrp.ne']
    ring
  simp only [edgeContrib]
  rw [adjTheta1_swap p q, adjTheta2_swap p q, hL]
  have hc1 : (q.2 * p.2 < 0 ∧ q.1 * p.2 = p.1 * q.2) ↔
      (p.2 * q.2 < 0 ∧ p.1 * q.2 = q.1 * p.2) := by
    constructor
    · rintro ⟨h1, h2⟩
      exact ⟨by rwa [mul_comm], h2.symm⟩
    · rintro ⟨h1, h2⟩
      exact ⟨by rwa [mul_comm], h2.symm⟩
  have hdg : degenGuard q p ↔ degenGuard p q := by unfold degenGuard; tauto
  have hv : (q.1 = p.1) ↔ (p.1 = q.1) := eq_comm
  simp only [hc1, hdg, hv]
  split_ifs with h1 h2 h3
  · simp
  · simp
  · rw [h3]
    simp only [Prod.mk.injEq]
    constructor <;> ring
  · have hB : (p.2 - q.2) / (p.1 - q.1) = (q.2 - p.2) / (q.1 - p.1) := by
      rw [show p.2 - q.2 = -(q.2 - p.2) by ring,
        show p.1 - q.1 = -(q.1 - p.1) by ring, neg_div_neg_eq]
    have hA : (p.1 - q.1) * (q.1 * p.2 - p.1 * q.2) /
        ((p.1 - q.1) ^ 2 + (p.2 - q.2) ^ 2) =
        (q.1 - p.1) * (p.1 * q.2 - q.1 * p.2) /
        ((q.1 - p.1) ^ 2 + (q.2 - p.2) ^ 2) := by
      rw [show (p.1 - q.1) * (q.1 * p.2 - p.1 * q.2) =
          (q.1 - p.1) * (p.1 * q.2 - q.1 * p.2) by ring,
        show (p.1 - q.1) ^ 2 + (p.2 - q.2) ^ 2 =
          (q.1 - p.1) ^ 2 + (q.2 - p.2) ^ 2 by ring]
    rw [hA, hB]
    simp only [Prod.mk.injEq]
    constructor <;> ring

theorem pairs_concat {α : Type} :
    ∀ (l : List α) (x : α),
      pairs (l ++ [x]) =
        pairs l ++ ((l.getLast?).map (fun b => (b, x))).toList := by
  intro l
  induction l with
  | nil => intro x; rfl
  | cons a t ih =>
    intro x
    cases t with
    | nil => rfl
    | cons b t' =>
      have ih' := ih x
      simp only [List.cons_append] at ih'
      simp only [List.cons_append, pairs, List.getLast?_cons_cons]
      exact congrArg (List.cons (a, b)) ih'

theorem pairs_reverse {α : Type} :
    ∀ (l : List α), pairs l.reverse = ((pairs l).map Prod.swap).reverse := by
  intro l
  induction l with
  | nil => rfl
  | cons a t ih =>
    cases t with
    | nil => rfl
    | cons b t' =>
      rw [List.reverse_cons, pairs_concat, ih]
      simp [pairs]

theorem sum_map_neg {α : Type} (l : List α) (f : α → ℝ) :
    (l.map (fun a => -(f a))).sum = -((l.map f).sum) := by
  induction l with
  | nil => simp
  | cons a t ih => simp [ih]; ring

theorem pairSum_reverse {α : Type} (f : α → α → ℝ) (l : List α)
    (h : ∀ e ∈ pairs l, f e.2 e.1 = -(f e.1 e.2)) :
    ((pairs l.reverse).map (fun e => f e.1 e.2)).sum =
      -(((pairs l).map (fun e => f e.1 e.2)).sum) := by
  rw [pairs_reverse, List.map_reverse, List.sum_reverse, List.map_map]
  have heq : (pairs l).map ((fun e => f e.1 e.2) ∘ Prod.swap) =
      (pairs l).map (fun e => -(f e.1 e.2)) :=
    List.map_congr_left (fun e he => by
      simp only [Function.comp, Prod.fst_swap, Prod.snd_swap]
      exact h e he)
  rw [heq, sum_map_neg]

theorem perturbedPts_reverse (ring : List (ℝ × ℝ)) (s : ℝ × ℝ) :
    perturbedPts ring.reverse s = (perturbedPts ring s).reverse := by
  simp [perturbedPts, List.map_reverse]

theorem stationAnomaly_reverse (ring : List (ℝ × ℝ)) (density : ℝ)
    (s : ℝ × ℝ) :
    stationAnomaly ring.reverse density s =
      (-(stationAnomaly ring density s).1,
       -(stationAnomaly ring density s).2) := by
  have hswap : ∀ e ∈ pairs (perturbedPts ring s),
      edgeContrib e.2 e.1 =
        (-(edgeContrib e.1 e.2).1, -(edgeContrib e.1 e.2).2) := fun e he => by
    have h2 := mem_pairs _ e he
    exact edgeContrib_swap e.1 e.2
      (mem_perturbedPts _ _ _ h2.1) (mem_perturbedPts _ _ _ h2.2)
  have hX : edgeSumX ring.reverse s = -(edgeSumX ring s) := by
    unfold edgeSumX
    rw [perturbedPts_reverse]
    exact pairSum_reverse (fun a b => (edgeContrib a b).1) _
      (fun e he => by dsimp only; rw [hswap e he])
  have hZ : edgeSumZ ring.reverse s = -(edgeSumZ ring s) := by
    unfold edgeSumZ
    rw [perturbedPts_reverse]
    exact pairSum_reverse (fun a b => (edgeContrib a b).2) _
      (fun e he => by dsimp only; rw [hswap e he])
  unfold stationAnomaly
  rw [hX, hZ]
  simp only [Prod.mk.injEq]
  constructor <;> ring

end Grav2D

end

namespace Grav2D

/-! ### The claims -/

/-- Claim C1: for an edge not handled by an earlier degenerate case (the
sign-crossing pass-through and the degenerate-vertex case), the per-edge
contribution computed by `Grav` equals the spec's closed form — the
vertical-edge formula when `x[j] == x[j+1]`, otherwise the general `A`/`B`
formula, in both cases with the branch-cut-adjusted thetas. -/
theorem edgeContrib_matches_spec (p q : ℝ × ℝ)
    (h1 : ¬(p.2 * q.2 < 0 ∧ p.1 * q.2 = q.1 * p.2))
    (h2 : ¬ degenGuard p q) :
    edgeContrib p q = specEdgeContrib p q := by
  have ht1 : adjTheta1 p q = specTheta1 p q := rfl
  have ht2 : adjTheta2 p q = specTheta2 p q := by
    unfold adjTheta2 specTheta2
    by_cases hc : p.2 * q.2 < 0 ∧ p.1 * q.2 > q.1 * p.2 ∧ p.2 ≥ 0
    · rw [if_pos hc, if_pos ⟨hc.1, fun hcon => absurd hc.2.1 (asymm hcon.1),
        hc.2⟩]
    · rw [if_neg hc, if_neg (fun hcon => hc ⟨hcon.1, hcon.2.2⟩)]
  simp only [edgeContrib, specEdgeContrib]
  rw [if_neg h1, if_neg h2, ht1, ht2]

/-- Witness for C1 at the concrete edge `(1,1)-(2,3)`. -/
theorem edgeContrib_matches_spec_witness :
    ¬(((1 : ℝ), (1 : ℝ)).2 * ((2 : ℝ), (3 : ℝ)).2 < 0 ∧
      ((1 : ℝ), (1 : ℝ)).1 * ((2 : ℝ), (3 : ℝ)).2 =
        ((2 : ℝ), (3 : ℝ)).1 * ((1 : ℝ), (1 : ℝ)).2) ∧
    ¬ degenGuard ((1 : ℝ), (1 : ℝ)) ((2 : ℝ), (3 : ℝ)) ∧
    edgeContrib ((1 : ℝ), (1 : ℝ)) ((2 : ℝ), (3 : ℝ)) =
      specEdgeContrib ((1 : ℝ), (1 : ℝ)) ((2 : ℝ), (3 : ℝ)) :=
  ⟨by norm_num, by norm_num [degenGuard],
   edgeContrib_matches_spec ((1 : ℝ), (1 : ℝ)) ((2 : ℝ), (3 : ℝ))
     (by norm_num) (by norm_num [degenGuard])⟩

/-- Claim C2: on a sign-crossing edge (`z[j]*z[j+1] < 0`), `theta1` gains
`2π` exactly when `x[j]*z[j+1] < x[j+1]*z[j]` and `z[j+1] ≥ 0`, `theta2`
gains `2π` exactly when `x[j]*z[j+1] > x[j+1]*z[j]` and `z[j] ≥ 0`, and when
`x[j]*z[j+1] == x[j+1]*z[j]` (edge passes exactly through the station) the
edge's contribution is `(0, 0)` and the remaining cases are skipped. -/
theorem branch_cut_adjustment (p q : ℝ × ℝ) (hz : p.2 * q.2 < 0) :
    (adjTheta1 p q =
      if p.1 * q.2 < q.1 * p.2 ∧ q.2 ≥ 0 then theta p + 2 * π else theta p) ∧
    (adjTheta2 p q =
      if p.1 * q.2 > q.1 * p.2 ∧ p.2 ≥ 0 then theta q + 2 * π else theta q) ∧
    (p.1 * q.2 = q.1 * p.2 → edgeContrib p q = (0, 0)) := by
  refine ⟨?_, ?_, ?_⟩
  · unfold adjTheta1
    by_cases hc : p.1 * q.2 < q.1 * p.2 ∧ q.2 ≥ 0
    · rw [if_pos ⟨hz, hc⟩, if_pos hc]
    · rw [if_neg (fun h => hc h.2), if_neg hc]
  · unfold adjTheta2
    by_cases hc : p.1 * q.2 > q.1 * p.2 ∧ p.2 ≥ 0
    · rw [if_pos ⟨hz, hc⟩, if_pos hc]
    · rw [if_neg (fun h => hc h.2), if_neg hc]
  · intro he
    simp only [edgeContrib]
    rw [if_pos ⟨hz, he⟩]

/-- Witness for C2 at the concrete sign-crossing edge `(1,1)-(1,-1)`. -/
theorem branch_cut_adjustment_witness :
    ((1 : ℝ), (1 : ℝ)).2 * ((1 : ℝ), (-1 : ℝ)).2 < 0 ∧
    ((adjTheta1 ((1 : ℝ), (1 : ℝ)) ((1 : ℝ), (-1 : ℝ)) =
      if ((1 : ℝ), (1 : ℝ)).1 * ((1 : ℝ), (-1 : ℝ)).2 <
          ((1 : ℝ), (-1 : ℝ)).1 * ((1 : ℝ), (1 : ℝ)).2 ∧
          ((1 : ℝ), (-1 : ℝ)).2 ≥ 0 then
        theta ((1 : ℝ), (1 : ℝ)) + 2 * π else theta ((1 : ℝ), (1 : ℝ))) ∧
    (adjTheta2 ((1 : ℝ), (1 : ℝ)) ((1 : ℝ), (-1 : ℝ)) =
      if ((1 : ℝ), (1 : ℝ)).1 * ((1 : ℝ), (-1 : ℝ)).2 >
          ((1 : ℝ), (-1 : ℝ)).1 * ((1 : ℝ), (1 : ℝ)).2 ∧
          ((1 : ℝ), (1 : ℝ)).2 ≥ 0 then
        theta ((1 : ℝ), (-1 : ℝ)) + 2 * π else theta ((1 : ℝ), (-1 : ℝ))) ∧
    (((1 : ℝ), (1 : ℝ)).1 * ((1 : ℝ), (-1 : ℝ)).2 =
        ((1 : ℝ), (-1 : ℝ)).1 * ((1 : ℝ), (1 : ℝ)).2 →
      edgeContrib ((1 : ℝ), (1 : ℝ)) ((1 : ℝ), (-1 : ℝ)) = (0, 0))) :=
  ⟨by norm_num,
   branch_cut_adjustment ((1 : ℝ), (1 : ℝ)) ((1 : ℝ), (-1 : ℝ)) (by norm_num)⟩

/-- Claim C10: the degenerate-vertex branch (Case 2) is unreachable — every
perturbed vertex has `z ≠ 0`, so its guard is false on every edge the loop
visits, and the contribution equals that of the same dispatch with the
branch deleted (the perturbed vertical-edge / general-case formulas). -/
theorem degen_branch_unreachable (ring : List (ℝ × ℝ)) (s : ℝ × ℝ)
    (e : (ℝ × ℝ) × (ℝ × ℝ)) (he : e ∈ pairs (perturbedPts ring s)) :
    ¬ degenGuard e.1 e.2 ∧ edgeContrib e.1 e.2 = edgeContribND e.1 e.2 := by
  have h2 := mem_pairs _ e he
  have hz1 := mem_perturbedPts _ _ _ h2.1
  have hz2 := mem_perturbedPts _ _ _ h2.2
  have hng : ¬ degenGuard e.1 e.2 := by
    rintro (⟨_, h⟩ | ⟨_, h⟩)
    · exact hz1 h
    · exact hz2 h
  refine ⟨hng, ?_⟩
  simp only [edgeContrib, edgeContribND]
  by_cases hc1 : e.1.2 * e.2.2 < 0 ∧ e.1.1 * e.2.2 = e.2.1 * e.1.2
  · rw [if_pos hc1, if_pos hc1]
  · rw [if_neg hc1, if_neg hc1, if_neg hng]

/-- Witness for C10: a station sitting exactly on a polygon vertex. -/
theorem degen_branch_unreachable_witness :
    (((0 : ℝ), (1e-42 : ℝ)), ((1 : ℝ), (1 : ℝ))) ∈
      pairs (perturbedPts [((0 : ℝ), (0 : ℝ)), (1, 1)] (0, 0)) ∧
    (¬ degenGuard ((0 : ℝ), (1e-42 : ℝ)) ((1 : ℝ), (1 : ℝ)) ∧
      edgeContrib ((0 : ℝ), (1e-42 : ℝ)) ((1 : ℝ), (1 : ℝ)) =
        edgeContribND ((0 : ℝ), (1e-42 : ℝ)) ((1 : ℝ), (1 : ℝ))) := by
  have hmem : (((0 : ℝ), (1e-42 : ℝ)), ((1 : ℝ), (1 : ℝ))) ∈
      pairs (perturbedPts [((0 : ℝ), (0 : ℝ)), (1, 1)] (0, 0)) := by
    norm_num [pairs, perturbedPts, perturbZ, relPt]
  exact ⟨hmem, degen_branch_unreachable _ _ _ hmem⟩

/-- Claim C3: after translating the vertices into station-relative
coordinates, every `z` that is exactly zero is replaced by `1e-42` (other
coordinates are untouched), so every vertex of the perturbed array has
`z ≠ 0` and a strictly positive radius `r` — no later step divides by a zero
radius or takes the log of zero. -/
theorem zero_z_perturbation (ring : List (ℝ × ℝ)) (s q p : ℝ × ℝ)
    (hp : p ∈ perturbedPts ring s) :
    ((perturbZ q).1 = q.1 ∧ (perturbZ q).2 = if q.2 = 0 then 1e-42 else q.2) ∧
    p.2 ≠ 0 ∧ 0 < rr p :=
  ⟨⟨rfl, rfl⟩, mem_perturbedPts ring s p hp,
    rr_pos p (mem_perturbedPts ring s p hp)⟩

/-- Witness for C3 at a concrete ring, station and vertex. -/
theorem zero_z_perturbation_witness :
    ((1 : ℝ), (2 : ℝ)) ∈ perturbedPts [((1 : ℝ), (2 : ℝ))] (0, 0) ∧
    (((perturbZ ((3 : ℝ), (0 : ℝ))).1 = 3 ∧
      (perturbZ ((3 : ℝ), (0 : ℝ))).2 = if (0 : ℝ) = 0 then 1e-42 else 0) ∧
     ((1 : ℝ), (2 : ℝ)).2 ≠ 0 ∧ 0 < rr ((1 : ℝ), (2 : ℝ))) := by
  have hmem : ((1 : ℝ), (2 : ℝ)) ∈ perturbedPts [((1 : ℝ), (2 : ℝ))] (0, 0) := by
    norm_num [perturbedPts, perturbZ, relPt]
  exact ⟨hmem, zero_z_perturbation [((1 : ℝ), (2 : ℝ))] (0, 0) (3, 0) _ hmem⟩

/-- Claim C4: the returned anomalies are the per-edge sums scaled exactly by
`2 * G * density * 1e5`, with `G = 6.67259e-11` (the `1e5` converting m/s²
to mGal): `zAnomaly[i] = 2*G*density*sum(Z)*1e5` and
`xAnomaly[i] = 2*G*density*sum(X)*1e5`. -/
theorem anomaly_scaling (ring sts : List (ℝ × ℝ)) (density : ℝ) :
    G = 6.67259e-11 ∧
    (Grav ring density sts).2 =
      sts.map (fun s => 2 * G * density * edgeSumZ ring s * 1e5) ∧
    (Grav ring density sts).1 =
      sts.map (fun s => 2 * G * density * edgeSumX ring s * 1e5) :=
  ⟨rfl, rfl, rfl⟩

/-- Claim C5: the per-station computation performs no undefined real
operation — with every division, logarithm and square root guarded, the
checked kernel still returns `some` of the unchecked result, for every ring,
density and station (including a station on a vertex or aligned with an
edge): nothing raises, and every intermediate value is a well-defined real
number, so the two anomaly components are finite. -/
theorem grav_total_and_finite (ring : List (ℝ × ℝ)) (density : ℝ) (s : ℝ × ℝ) :
    stationAnomalyChecked ring density s =
      some (stationAnomaly ring density s) := by
  unfold stationAnomalyChecked stationAnomaly edgeSumX edgeSumZ
  have hmap : mapMO (fun e => edgeContribChecked e.1 e.2)
      (pairs (perturbedPts ring s)) =
      some ((pairs (perturbedPts ring s)).map (fun e => edgeContrib e.1 e.2)) :=
    mapMO_eq_map _ _ _ (fun e he => by
      have h2 := mem_pairs _ e he
      exact edgeContribChecked_eq e.1 e.2
        (mem_perturbedPts _ _ _ h2.1) (mem_perturbedPts _ _ _ h2.2))
  rw [hmap]
  simp only [Option.bind_eq_bind, Option.some_bind, List.map_map,
    Function.comp_def]

/-- Claim C6: doubling the density exactly doubles both output components at
every station. -/
theorem grav_density_doubling (ring : List (ℝ × ℝ)) (density : ℝ)
    (sts : List (ℝ × ℝ)) :
    Grav ring (2 * density) sts =
      ((Grav ring density sts).1.map (fun a => 2 * a),
       (Grav ring density sts).2.map (fun a => 2 * a)) := by
  simp only [Grav, stationAnomaly, List.map_map, Prod.mk.injEq]
  constructor <;>
    (apply List.map_congr_left; intro s _; simp only [Function.comp]; ring)

/-- Claim C7: reversing the order of the polygon's vertices (opposite
winding) negates both anomaly components at every station. -/
theorem grav_reverse_neg (ring : List (ℝ × ℝ)) (density : ℝ)
    (sts : List (ℝ × ℝ)) :
    Grav ring.reverse density sts =
      ((Grav ring density sts).1.map (fun a => -a),
       (Grav ring density sts).2.map (fun a => -a)) := by
  simp only [Grav, List.map_map, Prod.mk.injEq]
  constructor <;>
    (apply List.map_congr_left; intro s _;
     simp only [Function.comp_apply, stationAnomaly_reverse])

/-- Claim C8: a negative density is rejected with `InvalidDensityError` by
the setter, hence already at construction (before any gravity computation
can run); a density `≥ 0` is accepted and stored unchanged. -/
theorem density_validation (v : ℝ) (shell : List (ℝ × ℝ)) (b : Bool) :
    (v < 0 → setDensity v = .error .invalidDensityError ∧
      mkDensePolygon shell v b = .error .invalidDensityError) ∧
    (0 ≤ v → setDensity v = .ok v) := by
  constructor
  · intro h
    have hs : setDensity v = .error .invalidDensityError := by
      simp [setDensity, h]
    exact ⟨hs, by simp [mkDensePolygon, hs]⟩
  · intro h
    simp [setDensity, not_lt.mpr h]

/-- Witness for C8 at densities `-1` and `5`. -/
theorem density_validation_witness :
    setDensity (-1) = .error .invalidDensityError ∧
    mkDensePolygon [((0 : ℝ), (0 : ℝ))] (-1) true = .error .invalidDensityError ∧
    setDensity (5 : ℝ) = .ok 5 :=
  ⟨((density_validation (-1) [((0 : ℝ), (0 : ℝ))] true).1 (by norm_num)).1,
   ((density_validation (-1) [((0 : ℝ), (0 : ℝ))] true).1 (by norm_num)).2,
   (density_validation 5 [((0 : ℝ), (0 : ℝ))] true).2 (by norm_num)⟩

/-- Claim C9: with a non-negative density, a polygon the validity check
rejects makes construction fail with `InvalidGeometryError` (before any
per-station computation exists), and a valid polygon constructs without
error. (With a negative density, the density error fires first, since the
setter runs before the geometry check.) -/
theorem geometry_validation (shell : List (ℝ × ℝ)) (d : ℝ) (hd : 0 ≤ d) :
    mkDensePolygon shell d false = .error .invalidGeometryError ∧
    mkDensePolygon shell d true = .ok ⟨shell, d⟩ := by
  have hs : setDensity d = .ok d := by simp [setDensity, not_lt.mpr hd]
  constructor <;> simp [mkDensePolygon, hs]

/-- Witness for C9 at a concrete square ring and density 100. -/
theorem geometry_validation_witness :
    (0 : ℝ) ≤ 100 ∧
    mkDensePolygon [((0 : ℝ), (0 : ℝ)), (1, 0), (1, 1), (0, 1), (0, 0)] 100
      false = .error .invalidGeometryError ∧
    mkDensePolygon [((0 : ℝ), (0 : ℝ)), (1, 0), (1, 1), (0, 1), (0, 0)] 100
      true = .ok ⟨[((0 : ℝ), (0 : ℝ)), (1, 0), (1, 1), (0, 1), (0, 0)], 100⟩ :=
  ⟨by norm_num,
   (geometry_validation _ 100 (by norm_num)).1,
   (geometry_validation _ 100 (by norm_num)).2⟩

end Grav2D
